import Mathlib

/-!
Verification of the HEVI dynamical core `HighSpeedDynamics.cpp` (tempestmodel).

We shallowly embed the routines of `src/src/atm/HighSpeedDynamics.cpp` over
exact rationals.  Machine doubles are modelled as `ℚ`; the external library
power function `pow(x, 3.2)` is abstracted as a parameter `pw : ℚ → ℚ`
because its value is irrelevant to every claim (only the branch structure
around it matters).  Loops whose iterations write pairwise disjoint array
cells, with values that do not depend on the writes of other iterations,
are embedded by their pointwise net effect; genuinely sequential
computations (the tridiagonal forward and backward sweeps, the Rayleigh
sub-cycling, the element sweep that reuses scratch buffers) are embedded
as recursions and folds.
-/

namespace TempestHSD

/-! ## Positive-definite tracer filter (`FilterNegativeTracers`)

For a fixed element, tracer index and vertical level, the filter sees the
`p × p` quadrature points as a collection of pairs
(tracer value `dataUpdateTracer(c,iA,iB,k)`, area `dElementAreaNode(iA,iB,k)`).
We embed that collection as a list of pairs. -/

/-- Element total mass `dTotalMass = Σ ψ·ΔA` accumulated over the points. -/
def totalMass (l : List (ℚ × ℚ)) : ℚ :=
  (l.map (fun pt => pt.1 * pt.2)).sum

/-- Element non-negative mass `dNonNegativeMass`: the same accumulation
restricted to points with `ψ ≥ 0` (the source tests `>= 0.0`). -/
def nonNegativeMass (l : List (ℚ × ℚ)) : ℚ :=
  (l.map (fun pt => if 0 ≤ pt.1 then pt.1 * pt.2 else 0)).sum

/-- The body of `HighSpeedDynamics::FilterNegativeTracers` for one
(element, tracer, level): compute `dR = dTotalMass / dNonNegativeMass`,
then scale strictly positive points by `dR` and zero the others. -/
def filterNegativeTracers (l : List (ℚ × ℚ)) : List (ℚ × ℚ) :=
  l.map (fun pt =>
    (if 0 < pt.1 then (totalMass l / nonNegativeMass l) * pt.1 else 0, pt.2))

theorem nonNegativeMass_eq_posSum (l : List (ℚ × ℚ)) :
    nonNegativeMass l =
      (l.map (fun pt => if 0 < pt.1 then pt.1 * pt.2 else 0)).sum := by
  unfold nonNegativeMass
  congr 1
  apply List.map_congr_left
  intro pt _
  by_cases h1 : 0 < pt.1
  · simp [h1, le_of_lt h1]
  · by_cases h2 : 0 ≤ pt.1
    · have : pt.1 = 0 := le_antisymm (not_lt.mp h1) h2
      simp [h1, h2, this]
    · simp [h1, h2]

theorem totalMass_scaled (l : List (ℚ × ℚ)) (R : ℚ) :
    totalMass (l.map (fun pt => (if 0 < pt.1 then R * pt.1 else 0, pt.2))) =
      R * (l.map (fun pt => if 0 < pt.1 then pt.1 * pt.2 else 0)).sum := by
  unfold totalMass
  rw [List.map_map, ← List.sum_map_mul_left]
  congr 1
  apply List.map_congr_left
  intro pt _
  by_cases h : 0 < pt.1
  · simp only [Function.comp_apply, h, if_true]
    ring
  · simp [h]

theorem totalMass_filterNegativeTracers (l : List (ℚ × ℚ)) :
    totalMass (filterNegativeTracers l) =
      (totalMass l / nonNegativeMass l) * nonNegativeMass l := by
  have h := totalMass_scaled l (totalMass l / nonNegativeMass l)
  unfold filterNegativeTracers
  rw [h, ← nonNegativeMass_eq_posSum]

/-- C1 (the claim as stated is refuted here): with points
`ψ = {1, -10}` and unit areas, the positive mass is `1 > 0`, yet the
filter produces the value `-9 < 0` at the first point (the ratio
`dR = M/M⁺ = -9` is negative because the total mass is negative), so the
filter does not leave every tracer value non-negative. -/
theorem filterNegativeTracers_positivity_cex :
    0 < nonNegativeMass [((1 : ℚ), 1), (-10, 1)] ∧
      (filterNegativeTracers [((1 : ℚ), 1), (-10, 1)]).map Prod.fst = [-9, 0] ∧
      ¬ (0 : ℚ) ≤ -9 := by
  refine ⟨by norm_num [nonNegativeMass], ?_, by norm_num⟩
  norm_num [filterNegativeTracers, totalMass, nonNegativeMass]

/-- C1 (amended): whenever the positive mass `M⁺` is strictly positive the
filter conserves the element-integrated mass exactly, and, additionally
provided the total mass `M` is non-negative, the filter leaves every
tracer value non-negative. -/
theorem filterNegativeTracers_mass_and_positivity (l : List (ℚ × ℚ))
    (hpos : 0 < nonNegativeMass l) :
    totalMass (filterNegativeTracers l) = totalMass l ∧
      (0 ≤ totalMass l → ∀ pt ∈ filterNegativeTracers l, 0 ≤ pt.1) := by
  constructor
  · rw [totalMass_filterNegativeTracers]
    exact div_mul_cancel₀ _ (ne_of_gt hpos)
  · intro hM pt hpt
    unfold filterNegativeTracers at hpt
    obtain ⟨q, _, rfl⟩ := List.mem_map.mp hpt
    by_cases h : 0 < q.1
    · simp only [h, if_true]
      exact mul_nonneg (div_nonneg hM (le_of_lt hpos)) (le_of_lt h)
    · simp [h]

/-- Witness for the amended C1 theorem: points `{3, -1}` with unit areas
have `M⁺ = 3`, `M = 2`, and the theorem applies. -/
theorem filterNegativeTracers_mass_and_positivity_witness :
    totalMass (filterNegativeTracers [((3 : ℚ), 1), (-1, 1)]) =
        totalMass [((3 : ℚ), 1), (-1, 1)] ∧
      (0 ≤ totalMass [((3 : ℚ), 1), (-1, 1)] →
        ∀ pt ∈ filterNegativeTracers [((3 : ℚ), 1), (-1, 1)], 0 ≤ pt.1) :=
  filterNegativeTracers_mass_and_positivity [((3 : ℚ), 1), (-1, 1)]
    (by norm_num [nonNegativeMass])

/-- C9: if no point of the element carries a strictly positive tracer
value then the non-negative mass is exactly zero, and the filter sets
every point of the element and level to exactly `0` (no point ever takes
the scaling branch, so the ratio `dR` is never applied). -/
theorem filterNegativeTracers_allNonpositive (l : List (ℚ × ℚ))
    (h : ∀ pt ∈ l, pt.1 ≤ 0) :
    nonNegativeMass l = 0 ∧ ∀ pt ∈ filterNegativeTracers l, pt.1 = 0 := by
  constructor
  · unfold nonNegativeMass
    apply List.sum_eq_zero
    intro x hx
    obtain ⟨q, hq, rfl⟩ := List.mem_map.mp hx
    by_cases h0 : 0 ≤ q.1
    · have : q.1 = 0 := le_antisymm (h q hq) h0
      simp [h0, this]
    · simp [h0]
  · intro pt hpt
    unfold filterNegativeTracers at hpt
    obtain ⟨q, hq, rfl⟩ := List.mem_map.mp hpt
    have : ¬ 0 < q.1 := not_lt.mpr (h q hq)
    simp [this]

/-- Witness for C9 at the concrete input `ψ = {-1, 0}` with areas `{2, 3}`. -/
theorem filterNegativeTracers_allNonpositive_witness :
    nonNegativeMass [((-1 : ℚ), 2), (0, 3)] = 0 ∧
      ∀ pt ∈ filterNegativeTracers [((-1 : ℚ), 2), (0, 3)], pt.1 = 0 :=
  filterNegativeTracers_allNonpositive [((-1 : ℚ), 2), (0, 3)] (by norm_num)

/-! ## Hyperdiffusion coefficient scaling

`ApplyScalarHyperdiffusion` and `ApplyVectorHyperdiffusion` compute an
effective coefficient from the requested one.  The C library call
`pow(dElementDeltaA / dReferenceLength, 3.2)` is abstracted as `pw`
applied to `dElementDeltaA / dReferenceLength`. -/

/-- Scalar-hyperdiffusion coefficient selection: `dLocalNu = dNu`, scaled
by `pw (dElementDeltaA / dReferenceLength)` when `fScaleNuLocally` is set
and the reference length is nonzero (the source tests `!= 0.0`). -/
def localNu (pw : ℚ → ℚ) (nu : ℚ) (fScaleNuLocally : Bool)
    (refLength elementDeltaA : ℚ) : ℚ :=
  if fScaleNuLocally then
    (if refLength ≠ 0 then nu * pw (elementDeltaA / refLength) else nu)
  else nu

/-- Vector-hyperdiffusion coefficient selection: both `dLocalNuDiv` and
`dLocalNuVort` are scaled by the same factor under the same condition. -/
def localNuVector (pw : ℚ → ℚ) (nuDiv nuVort : ℚ) (fScaleNuLocally : Bool)
    (refLength elementDeltaA : ℚ) : ℚ × ℚ :=
  if fScaleNuLocally then
    (if refLength ≠ 0 then
      (nuDiv * pw (elementDeltaA / refLength),
       nuVort * pw (elementDeltaA / refLength))
     else (nuDiv, nuVort))
  else (nuDiv, nuVort)

/-- The coefficient the specification sentence literally describes:
scale exactly when scaling is requested and the reference length is
strictly positive. -/
def localNuSpecPositive (pw : ℚ → ℚ) (nu : ℚ) (fScaleNuLocally : Bool)
    (refLength elementDeltaA : ℚ) : ℚ :=
  if fScaleNuLocally = true ∧ 0 < refLength then
    nu * pw (elementDeltaA / refLength)
  else nu

/-- The amended coefficient description: scale exactly when scaling is
requested and the reference length is nonzero. -/
def localNuSpecNonzero (pw : ℚ → ℚ) (nu : ℚ) (fScaleNuLocally : Bool)
    (refLength elementDeltaA : ℚ) : ℚ :=
  if fScaleNuLocally = true ∧ refLength ≠ 0 then
    nu * pw (elementDeltaA / refLength)
  else nu

/-- A concrete stand-in for the library power map used in the C5
counterexample (any map with `pwCex (-1) ≠ 1` exhibits the divergence;
the C library value `pow(-1.0, 3.2)` is NaN, likewise different from the
unscaled coefficient). -/
def pwCex : ℚ → ℚ := fun _ => 2

/-- C5 (the claim as stated is refuted here): with scaling requested and
reference length `-1` (not positive but nonzero), the code still takes
the scaling branch, so the effective coefficient is not the unscaled `ν`
that the claim requires. -/
theorem localNu_positive_length_cex :
    localNu pwCex 1 true (-1) 1 = 2 ∧
      localNuSpecPositive pwCex 1 true (-1) 1 = 1 ∧ ((2 : ℚ) ≠ 1) := by
  refine ⟨?_, ?_, by norm_num⟩ <;> norm_num [localNu, localNuSpecPositive, pwCex]

/-- C5 (amended): the effective coefficients of scalar and vector
hyperdiffusion equal `ν · pw(Δα / L_ref)` exactly when local scaling is
requested and a nonzero reference length exists, and `ν` otherwise. -/
theorem localNu_eq_spec_nonzero (pw : ℚ → ℚ) (nu nuDiv nuVort : ℚ)
    (fScale : Bool) (refLength elementDeltaA : ℚ) :
    localNu pw nu fScale refLength elementDeltaA =
        localNuSpecNonzero pw nu fScale refLength elementDeltaA ∧
      localNuVector pw nuDiv nuVort fScale refLength elementDeltaA =
        (localNuSpecNonzero pw nuDiv fScale refLength elementDeltaA,
         localNuSpecNonzero pw nuVort fScale refLength elementDeltaA) := by
  cases fScale <;> by_cases h : refLength = 0 <;>
    simp [localNu, localNuVector, localNuSpecNonzero, h]

/-! ## Post-subcycle composer (`StepAfterSubCycle`)

We embed the control flow of `StepAfterSubCycle` as a trace semantics:
the result is the ordered list of data-modifying operations performed,
together with the error raised, if any.  An exception aborts the stage,
so nothing after it is appended. -/

/-- Error kinds raised by the routines modelled here. -/
inductive HSDError where
  | invalidIndices : HSDError
  | invalidViscosityOrder : HSDError
  | invalidComponent : HSDError
  deriving DecidableEq

/-- Data-modifying operations recorded by the composer, with the data
indices and coefficients they receive. -/
inductive StepAction where
  | copyState (src dst : ℕ) : StepAction
  | copyTracers (src dst : ℕ) : StepAction
  | zeroState (idx : ℕ) : StepAction
  | zeroTracers (idx : ℕ) : StepAction
  | scalarHD (init upd : ℕ) (dt nu : ℚ) (scale : Bool) : StepAction
  | vectorHD (init work upd : ℕ) (dt nuDiv nuVort : ℚ) (scale : Bool) : StepAction
  | filterTracers (idx : ℕ) : StepAction
  | dssState (idx : ℕ) : StepAction
  | dssTracers (idx : ℕ) : StepAction
  | rayleigh (idx : ℕ) (dt : ℚ) : StepAction
  deriving DecidableEq

/-- `HighSpeedDynamics::StepAfterSubCycle`: index validation, copy of
initial data into update data, then the branch over the hyperviscosity
order; `rayleighCompiled` models the `APPLY_RAYLEIGH_WITH_HYPERVIS`
compile-time toggle and `hasRayleigh` the grid query. -/
def stepAfterSubCycle (iInit iUpd iWork : ℕ) (nuScalar nuDiv nuVort : ℚ)
    (hOrder : ℕ) (dt : ℚ) (rayleighCompiled hasRayleigh : Bool) :
    List StepAction × Option HSDError :=
  if iInit = iWork then ([], some HSDError.invalidIndices)
  else if iUpd = iWork then ([], some HSDError.invalidIndices)
  else
    let copies := [StepAction.copyState iInit iUpd, StepAction.copyTracers iInit iUpd]
    let tail := if rayleighCompiled then
      (if hasRayleigh then [StepAction.rayleigh iUpd dt] else []) else []
    if nuScalar = 0 ∧ nuDiv = 0 ∧ nuVort = 0 then (copies ++ tail, none)
    else if hOrder = 0 then (copies ++ tail, none)
    else if hOrder = 2 then
      (copies ++
        [StepAction.scalarHD iInit iUpd dt nuScalar false,
         StepAction.vectorHD iInit iInit iUpd (-dt) nuDiv nuVort false,
         StepAction.filterTracers iUpd,
         StepAction.dssState iUpd, StepAction.dssTracers iUpd] ++ tail, none)
    else if hOrder = 4 then
      (copies ++
        [StepAction.zeroState iWork, StepAction.zeroTracers iWork,
         StepAction.scalarHD iInit iWork 1 1 false,
         StepAction.vectorHD iInit iInit iWork 1 1 1 false,
         StepAction.dssState iWork, StepAction.dssTracers iWork,
         StepAction.scalarHD iWork iUpd (-dt) nuScalar true,
         StepAction.vectorHD iInit iWork iUpd (-dt) nuDiv nuVort true,
         StepAction.filterTracers iUpd,
         StepAction.dssState iUpd, StepAction.dssTracers iUpd] ++ tail, none)
    else (copies, some HSDError.invalidViscosityOrder)

/-- C7: whenever the working index equals the initial index or the update
index, `StepAfterSubCycle` raises the InvalidIndices error with an empty
operation trace, so the check happens before any data is copied or
modified. -/
theorem stepAfterSubCycle_invalidIndices (iInit iUpd iWork : ℕ)
    (nuScalar nuDiv nuVort : ℚ) (hOrder : ℕ) (dt : ℚ) (rc hr : Bool)
    (h : iWork = iInit ∨ iWork = iUpd) :
    stepAfterSubCycle iInit iUpd iWork nuScalar nuDiv nuVort hOrder dt rc hr =
      ([], some HSDError.invalidIndices) := by
  rcases h with h | h
  · subst h
    simp [stepAfterSubCycle]
  · subst h
    by_cases h2 : iInit = iWork <;> simp [stepAfterSubCycle, h2]

/-- Witness for C7 at concrete indices `initial = working = 5`. -/
theorem stepAfterSubCycle_invalidIndices_witness :
    stepAfterSubCycle 5 1 5 1 1 1 2 1 false false =
      ([], some HSDError.invalidIndices) :=
  stepAfterSubCycle_invalidIndices 5 1 5 1 1 1 2 1 false false (Or.inl rfl)

/-- C6 (the claim as stated is refuted here): with hyperviscosity order
`3` but all three viscosity coefficients zero, the composer takes the
no-hyperdiffusion branch and returns without any error. -/
theorem stepAfterSubCycle_order3_cex :
    ¬ (3 = 0 ∨ 3 = 2 ∨ 3 = 4) ∧
      (stepAfterSubCycle 0 1 2 0 0 0 3 1 false false).2 = none := by
  refine ⟨by decide, ?_⟩
  simp [stepAfterSubCycle]

/-- C6 (amended): `StepAfterSubCycle` fails with InvalidViscosityOrder
whenever the hyperviscosity order is not 0, 2 or 4, provided the index
checks pass and not all of `νScalar`, `νDiv`, `νVort` are zero. -/
theorem stepAfterSubCycle_invalid_order (iInit iUpd iWork : ℕ)
    (nuScalar nuDiv nuVort : ℚ) (hOrder : ℕ) (dt : ℚ) (rc hr : Bool)
    (h1 : iInit ≠ iWork) (h2 : iUpd ≠ iWork)
    (h3 : ¬ (nuScalar = 0 ∧ nuDiv = 0 ∧ nuVort = 0))
    (h4 : hOrder ≠ 0) (h5 : hOrder ≠ 2) (h6 : hOrder ≠ 4) :
    (stepAfterSubCycle iInit iUpd iWork nuScalar nuDiv nuVort
        hOrder dt rc hr).2 = some HSDError.invalidViscosityOrder := by
  simp [stepAfterSubCycle, h1, h2, h3, h4, h5, h6]

/-- Witness for the amended C6 theorem at order 3 with `νScalar = 1`. -/
theorem stepAfterSubCycle_invalid_order_witness :
    (stepAfterSubCycle 0 1 2 1 0 0 3 1 false false).2 =
      some HSDError.invalidViscosityOrder :=
  stepAfterSubCycle_invalid_order 0 1 2 1 0 0 3 1 false false
    (by decide) (by decide) (by norm_num) (by decide) (by decide) (by decide)

/-! ## Vertical implicit acoustic stage (`StepImplicit`)

The stage works column by column: for each horizontal quadrature node
`(i,j)` of an element it assembles a tridiagonal system of size `nR+1`
on the vertical interfaces and solves it.  We embed one column: the
initial node data (`rhoTheta = dataInitialNode(PIx)`,
`rhoNode = dataInitialNode(RIx)`), the initial interface data
(`wInit = dataInitialREdge(WIx)`, plus the incoming contents
`pEdgePrev`, `rEdgePrev` of the `PIx`/`RIx` interface slots, which the
stage overwrites at interior interfaces only), the vertical coordinates
`zn`/`zi`, and the external equation of state `pressFn`
(`PhysicalConstants::PressureFromRhoTheta`). -/

/-- Global parameters of the implicit stage. -/
structure ImpParams where
  nR : ℕ
  gamma : ℚ
  g : ℚ
  deltaT : ℚ

/-- One vertical column of input data at a fixed horizontal node. -/
structure ImpCol where
  rhoTheta : ℕ → ℚ
  rhoNode : ℕ → ℚ
  wInit : ℕ → ℚ
  pEdgePrev : ℕ → ℚ
  rEdgePrev : ℕ → ℚ
  zn : ℕ → ℚ
  zi : ℕ → ℚ
  pressFn : ℚ → ℚ

/-- Nodal pressure `dataPressure = PressureFromRhoTheta(rhoTheta)`. -/
def pres (c : ImpCol) (k : ℕ) : ℚ := c.pressFn (c.rhoTheta k)

/-- Acoustic term `m_dDpDTheta = dataPressure · γ / rhoTheta`. -/
def dpdth (P : ImpParams) (c : ImpCol) (k : ℕ) : ℚ :=
  pres c k * P.gamma / c.rhoTheta k

/-- Interface density after the interpolation loop `k = 1 … nR-1`
(`dataInitialREdge(RIx,·,·,k) = ½(ρ_k + ρ_{k-1})`); outside that range
the incoming slot contents remain. -/
def rEdge (P : ImpParams) (c : ImpCol) (k : ℕ) : ℚ :=
  if 1 ≤ k ∧ k < P.nR then (1 / 2) * (c.rhoNode k + c.rhoNode (k - 1))
  else c.rEdgePrev k

/-- Interface θ after the interpolation loop: the stage stores θ (not ρθ)
in the `PIx` interface slot, `½ · (1/ρ_edge) · (ρθ_k + ρθ_{k-1})`. -/
def thetaEdge (P : ImpParams) (c : ImpCol) (k : ℕ) : ℚ :=
  if 1 ≤ k ∧ k < P.nR then
    (1 / 2) * (1 / rEdge P c k) * (c.rhoTheta k + c.rhoTheta (k - 1))
  else c.pEdgePrev k

/-- `dInvDeltaZk = 1/(zi_{k+1} − zi_k)`, interface-to-interface spacing. -/
def invDzk (c : ImpCol) (k : ℕ) : ℚ := 1 / (c.zi (k + 1) - c.zi k)

/-- `dInvDeltaZkm = 1/(zi_k − zi_{k-1})`. -/
def invDzkm (c : ImpCol) (k : ℕ) : ℚ := 1 / (c.zi k - c.zi (k - 1))

/-- `dInvDeltaZhat = 1/(zn_k − zn_{k-1})`, node-to-node spacing. -/
def invDzhat (c : ImpCol) (k : ℕ) : ℚ := 1 / (c.zn k - c.zn (k - 1))

/-- Interior sub-diagonal entry written at slot `k-1` for `k = 1 … nR-1`. -/
def coefA (P : ImpParams) (c : ImpCol) (k : ℕ) : ℚ :=
  -(P.deltaT * P.deltaT) * invDzkm c k *
    (invDzhat c k * dpdth P c (k - 1) * thetaEdge P c (k - 1) - (1 / 2) * P.g)

/-- Interior main-diagonal entry at slot `k` for `k = 1 … nR-1`. -/
def coefB (P : ImpParams) (c : ImpCol) (k : ℕ) : ℚ :=
  1 + (P.deltaT * P.deltaT) *
    (invDzhat c k * thetaEdge P c k *
        (dpdth P c k * invDzk c k + dpdth P c (k - 1) * invDzkm c k)
      + (1 / 2) * P.g * (invDzk c k - invDzkm c k))

/-- Interior super-diagonal entry at slot `k` for `k = 1 … nR-1`. -/
def coefC (P : ImpParams) (c : ImpCol) (k : ℕ) : ℚ :=
  -(P.deltaT * P.deltaT) * invDzk c k *
    (invDzhat c k * dpdth P c k * thetaEdge P c (k + 1) + (1 / 2) * P.g)

/-- Interior right-hand side at slot `k` for `k = 1 … nR-1`:
`W_k − Δt·(∂_z p + g·ρ_edge)`. -/
def coefD (P : ImpParams) (c : ImpCol) (k : ℕ) : ℚ :=
  c.wInit k - P.deltaT *
    (invDzhat c k * (pres c k - pres c (k - 1)) + P.g * rEdge P c k)

/-- The scratch buffers `m_dA`, `m_dB`, `m_dC`, `m_dD` of one horizontal
slot `(i,j)`, allocated once at `Initialize` and reused by every element
(and every call). -/
structure TriBuffers where
  A : ℕ → ℚ
  B : ℕ → ℚ
  C : ℕ → ℚ
  D : ℕ → ℚ

/-- Net effect, on the scratch buffers, of the boundary-row setup
(`A_0 := 0, B_0 := 1, B_{nR} := 1, C_0 := 0, D_0 := 0, D_{nR} := 0`)
followed by the interior fill loop `k = 1 … nR-1` (which writes
`A_{k-1}, B_k, C_k, D_k`).  The loop iterations write pairwise disjoint
slots with values that do not read the buffers, so the embedding is
pointwise; the setup value `A_0 = 0` is overwritten by the fill when
`nR ≥ 2`, exactly as in the source.  Slots never written keep the
incoming buffer contents. -/
def assembleColumn (P : ImpParams) (c : ImpCol) (bufs : TriBuffers) :
    TriBuffers where
  A := fun j => if 1 ≤ j + 1 ∧ j + 1 < P.nR then coefA P c (j + 1)
    else if j = 0 then 0 else bufs.A j
  B := fun k => if 1 ≤ k ∧ k < P.nR then coefB P c k
    else if k = 0 ∨ k = P.nR then 1 else bufs.B k
  C := fun k => if 1 ≤ k ∧ k < P.nR then coefC P c k
    else if k = 0 then 0 else bufs.C k
  D := fun k => if 1 ≤ k ∧ k < P.nR then coefD P c k
    else if k = 0 ∨ k = P.nR then 0 else bufs.D k

/-- Modelled from the spec: the external tridiagonal solver (the source
reaches LAPACK `dgtsv` through vendor interfaces that are not part of
this repository; the specification describes it as a banded solver and
recommends the Thomas algorithm for reimplementation).  Forward sweep:
the modified super-diagonal and right-hand side. -/
def thomasCD (bufs : TriBuffers) : ℕ → ℚ × ℚ
  | 0 => (bufs.C 0 / bufs.B 0, bufs.D 0 / bufs.B 0)
  | i + 1 =>
      let prev := thomasCD bufs i
      let m := bufs.B (i + 1) - bufs.A i * prev.1
      (bufs.C (i + 1) / m, (bufs.D (i + 1) - bufs.A i * prev.2) / m)

/-- Modelled from the spec: Thomas back substitution, counting `j` rows
up from the bottom row `n` of the system. -/
def thomasBack (bufs : TriBuffers) (n : ℕ) : ℕ → ℚ
  | 0 => (thomasCD bufs n).2
  | j + 1 =>
      (thomasCD bufs (n - (j + 1))).2 -
        (thomasCD bufs (n - (j + 1))).1 * thomasBack bufs n j

/-- Modelled from the spec: the in-place tridiagonal solve on a system
with rows `0 … n`.  The super-diagonal and right-hand-side slots are
overwritten (the solution lands in `D`, as the post-solve code of
`StepImplicit` expects); the sub-diagonal is not written — the reference
LAPACK `dgtsv` likewise never writes the last sub-diagonal slot. -/
def thomasSolve (n : ℕ) (bufs : TriBuffers) : TriBuffers where
  A := bufs.A
  B := bufs.B
  C := fun i => (thomasCD bufs i).1
  D := fun i => thomasBack bufs n (n - i)

/-- One element's visit to the scratch buffers of a fixed horizontal
slot `(i,j)`: boundary setup and interior fill, then the solve. -/
def elementStep (P : ImpParams) (c : ImpCol) (bufs : TriBuffers) :
    TriBuffers :=
  thomasSolve P.nR (assembleColumn P c bufs)

/-- The element loop of `StepImplicit` as seen by the scratch buffers of
one horizontal slot: the elements are processed in order, each reusing
the buffers the previous element (and its solve) left behind. -/
def elementSweep (P : ImpParams) (bufs0 : TriBuffers) (l : List ImpCol) :
    TriBuffers :=
  l.foldl (fun b c => elementStep P c b) bufs0

theorem elementStep_preserves_Atop (P : ImpParams) (c : ImpCol)
    (bufs : TriBuffers) (hnR : 1 ≤ P.nR) (hA : bufs.A (P.nR - 1) = 0) :
    (elementStep P c bufs).A (P.nR - 1) = 0 := by
  show (assembleColumn P c bufs).A (P.nR - 1) = 0
  simp only [assembleColumn]
  have h1 : ¬ (1 ≤ P.nR - 1 + 1 ∧ P.nR - 1 + 1 < P.nR) := by omega
  rw [if_neg h1]
  by_cases h0 : P.nR - 1 = 0
  · rw [if_pos h0]
  · rw [if_neg h0]; exact hA

theorem elementSweep_preserves_Atop (P : ImpParams) (bufs0 : TriBuffers)
    (l : List ImpCol) (hnR : 1 ≤ P.nR) (hA : bufs0.A (P.nR - 1) = 0) :
    (elementSweep P bufs0 l).A (P.nR - 1) = 0 := by
  induction l generalizing bufs0 with
  | nil => exact hA
  | cons c t ih =>
      exact ih (elementStep P c bufs0)
        (elementStep_preserves_Atop P c bufs0 hnR hA)

/-- C3: before the tridiagonal solve of any element of the sweep — the
buffers holding whatever the previous elements' setups, fills and solves
left behind — the boundary rows of the size-`nR+1` system are the
identity with zero right-hand side: `B_0 = 1`, `C_0 = 0`, `D_0 = 0`,
`A_{nR-1} = 0`, `B_{nR} = 1`, `D_{nR} = 0`.  The buffers start from
their state at allocation, whose last sub-diagonal slot is zero. -/
theorem stepImplicit_boundary_rows (P : ImpParams) (bufs0 : TriBuffers)
    (l : List ImpCol) (c : ImpCol) (hnR : 1 ≤ P.nR)
    (hA0 : bufs0.A (P.nR - 1) = 0) :
    (assembleColumn P c (elementSweep P bufs0 l)).B 0 = 1 ∧
      (assembleColumn P c (elementSweep P bufs0 l)).C 0 = 0 ∧
      (assembleColumn P c (elementSweep P bufs0 l)).D 0 = 0 ∧
      (assembleColumn P c (elementSweep P bufs0 l)).A (P.nR - 1) = 0 ∧
      (assembleColumn P c (elementSweep P bufs0 l)).B P.nR = 1 ∧
      (assembleColumn P c (elementSweep P bufs0 l)).D P.nR = 0 := by
  have hsweep := elementSweep_preserves_Atop P bufs0 l hnR hA0
  have hb0 : ¬ (1 ≤ 0 ∧ 0 < P.nR) := by omega
  have hbn : ¬ (1 ≤ P.nR ∧ P.nR < P.nR) := by omega
  have htop : ¬ (1 ≤ P.nR - 1 + 1 ∧ P.nR - 1 + 1 < P.nR) := by omega
  refine ⟨?_, ?_, ?_, ?_, ?_, ?_⟩ <;> simp only [assembleColumn]
  · simp
  · simp
  · simp
  · rw [if_neg htop]
    by_cases h0 : P.nR - 1 = 0
    · rw [if_pos h0]
    · rw [if_neg h0]; exact hsweep
  · simp [hbn]
  · simp [hbn]

/-- A concrete column used by the implicit-stage witnesses. -/
def colWit : ImpCol where
  rhoTheta := fun _ => 1
  rhoNode := fun _ => 1
  wInit := fun _ => 0
  pEdgePrev := fun _ => 1
  rEdgePrev := fun _ => 1
  zn := fun k => (k : ℚ)
  zi := fun k => (k : ℚ)
  pressFn := fun q => q

/-- Zeroed scratch buffers used by the implicit-stage witnesses. -/
def bufsWit : TriBuffers where
  A := fun _ => 0
  B := fun _ => 0
  C := fun _ => 0
  D := fun _ => 0

/-- Witness for C3: two vertical levels, one element already processed
before the element under inspection. -/
theorem stepImplicit_boundary_rows_witness :
    (assembleColumn ⟨2, 1, 0, 0⟩ colWit
        (elementSweep ⟨2, 1, 0, 0⟩ bufsWit [colWit])).B 0 = 1 ∧
      (assembleColumn ⟨2, 1, 0, 0⟩ colWit
        (elementSweep ⟨2, 1, 0, 0⟩ bufsWit [colWit])).C 0 = 0 ∧
      (assembleColumn ⟨2, 1, 0, 0⟩ colWit
        (elementSweep ⟨2, 1, 0, 0⟩ bufsWit [colWit])).D 0 = 0 ∧
      (assembleColumn ⟨2, 1, 0, 0⟩ colWit
        (elementSweep ⟨2, 1, 0, 0⟩ bufsWit [colWit])).A (2 - 1) = 0 ∧
      (assembleColumn ⟨2, 1, 0, 0⟩ colWit
        (elementSweep ⟨2, 1, 0, 0⟩ bufsWit [colWit])).B 2 = 1 ∧
      (assembleColumn ⟨2, 1, 0, 0⟩ colWit
        (elementSweep ⟨2, 1, 0, 0⟩ bufsWit [colWit])).D 2 = 0 :=
  stepImplicit_boundary_rows ⟨2, 1, 0, 0⟩ bufsWit [colWit] colWit
    (by norm_num) rfl

/-! ### Post-solve updates and bottom boundary condition -/

/-- The update-state slice of one column: `dataUpdateREdge(WIx)` on
interfaces, `dataUpdateNode(RIx)` and `dataUpdateNode(PIx)` on nodes. -/
structure ImpColUpd where
  updW : ℕ → ℚ
  updR : ℕ → ℚ
  updP : ℕ → ℚ

/-- Single-cell overwrite of a vertical array. -/
def updFn (f : ℕ → ℚ) (i : ℕ) (v : ℚ) : ℕ → ℚ :=
  fun j => if j = i then v else f j

/-- The post-solve loop `k = 0 … nR-1` of `StepImplicit`: with `x` the
solution vector the solve left in the `D` buffer,
`W_k += x_k − W_k^init`, `R_k −= Δt · (x_{k+1} − x_k)/Δz_k`, and
`P_k −= Δt · (x_{k+1}·θ_{k+1} − x_k·θ_k)/Δz_k` with the θ values the
interpolation loop stored on the interfaces.  Iterations write disjoint
cells, each read before written, so the embedding is pointwise. -/
def postSolvePhase (P : ImpParams) (c : ImpCol) (x : ℕ → ℚ)
    (st : ImpColUpd) : ImpColUpd where
  updW := fun k => if k < P.nR then st.updW k + (x k - c.wInit k)
    else st.updW k
  updR := fun k => if k < P.nR then
      st.updR k - P.deltaT * (invDzk c k * (x (k + 1) - x k))
    else st.updR k
  updP := fun k => if k < P.nR then
      st.updP k - P.deltaT * (invDzk c k *
        (x (k + 1) * thetaEdge P c (k + 1) - x k * thetaEdge P c k))
    else st.updP k

/-- The final loop of `StepImplicit` on one column: the bottom boundary
condition `W_0 := 0`. -/
def applyBottomBC (st : ImpColUpd) : ImpColUpd :=
  { st with updW := updFn st.updW 0 0 }

/-- The whole implicit stage on one column: assemble, solve, post-solve
updates, bottom boundary condition.  Returns the updated column state
and the scratch buffers as the solve left them. -/
def stepImplicitColumn (P : ImpParams) (c : ImpCol) (bufs : TriBuffers)
    (st : ImpColUpd) : ImpColUpd × TriBuffers :=
  let solved := elementStep P c bufs
  (applyBottomBC (postSolvePhase P c solved.D st), solved)

/-- C4: in the post-solve phase, for every node `k < nR`, the update
state receives exactly `W_k += D_k − W_k^init`,
`R_k −= Δt·(D_{k+1} − D_k)/Δz_k` and
`P_k −= Δt·(D_{k+1}·θ_{k+1} − D_k·θ_k)/Δz_k`, where `D` is the solution
vector of the tridiagonal solve, `Δz_k` the interface-to-interface
spacing, and θ the values stored on the interfaces. -/
theorem stepImplicit_postSolve_update (P : ImpParams) (c : ImpCol)
    (bufs : TriBuffers) (st : ImpColUpd) (k : ℕ) (hk : k < P.nR) :
    (postSolvePhase P c (elementStep P c bufs).D st).updW k =
        st.updW k + ((elementStep P c bufs).D k - c.wInit k) ∧
      (postSolvePhase P c (elementStep P c bufs).D st).updR k =
        st.updR k - P.deltaT *
          ((elementStep P c bufs).D (k + 1) - (elementStep P c bufs).D k) /
          (c.zi (k + 1) - c.zi k) ∧
      (postSolvePhase P c (elementStep P c bufs).D st).updP k =
        st.updP k - P.deltaT *
          ((elementStep P c bufs).D (k + 1) * thetaEdge P c (k + 1) -
            (elementStep P c bufs).D k * thetaEdge P c k) /
          (c.zi (k + 1) - c.zi k) := by
  refine ⟨?_, ?_, ?_⟩ <;> simp only [postSolvePhase, invDzk, if_pos hk] <;> ring

/-- Witness for C4 at a single-level column, node `k = 0`. -/
theorem stepImplicit_postSolve_update_witness :
    (postSolvePhase ⟨1, 1, 0, 0⟩ colWit
        (elementStep ⟨1, 1, 0, 0⟩ colWit bufsWit).D ⟨fun _ => 1, fun _ => 1, fun _ => 1⟩).updW 0 =
        (1 : ℚ) + ((elementStep ⟨1, 1, 0, 0⟩ colWit bufsWit).D 0 - colWit.wInit 0) ∧
      (postSolvePhase ⟨1, 1, 0, 0⟩ colWit
        (elementStep ⟨1, 1, 0, 0⟩ colWit bufsWit).D ⟨fun _ => 1, fun _ => 1, fun _ => 1⟩).updR 0 =
        (1 : ℚ) - (0 : ℚ) *
          ((elementStep ⟨1, 1, 0, 0⟩ colWit bufsWit).D 1 - (elementStep ⟨1, 1, 0, 0⟩ colWit bufsWit).D 0) /
          (colWit.zi 1 - colWit.zi 0) ∧
      (postSolvePhase ⟨1, 1, 0, 0⟩ colWit
        (elementStep ⟨1, 1, 0, 0⟩ colWit bufsWit).D ⟨fun _ => 1, fun _ => 1, fun _ => 1⟩).updP 0 =
        (1 : ℚ) - (0 : ℚ) *
          ((elementStep ⟨1, 1, 0, 0⟩ colWit bufsWit).D 1 * thetaEdge ⟨1, 1, 0, 0⟩ colWit 1 -
            (elementStep ⟨1, 1, 0, 0⟩ colWit bufsWit).D 0 * thetaEdge ⟨1, 1, 0, 0⟩ colWit 0) /
          (colWit.zi 1 - colWit.zi 0) :=
  stepImplicit_postSolve_update ⟨1, 1, 0, 0⟩ colWit bufsWit
    ⟨fun _ => 1, fun _ => 1, fun _ => 1⟩ 0 (by norm_num)

/-- `StepImplicit` over a patch: every column (indexed by an arbitrary
type `ι` of horizontal quadrature nodes across the active elements) is
processed independently, then direct stiffness summation — an external
collaborator, passed as the operator `dss` acting on one state component
at a time — is applied to the updated state. -/
def stepImplicitPatch {ι : Type} (P : ImpParams) (cols : ι → ImpCol)
    (bufsOf : ι → TriBuffers) (sts : ι → ImpColUpd)
    (dss : (ι → ℕ → ℚ) → ι → ℕ → ℚ) : ι → ImpColUpd :=
  let stepped := fun i => (stepImplicitColumn P (cols i) (bufsOf i) (sts i)).1
  fun i =>
    { updW := dss (fun i2 => (stepped i2).updW) i,
      updR := dss (fun i2 => (stepped i2).updR) i,
      updP := dss (fun i2 => (stepped i2).updP) i }

/-- C2: after `StepImplicit` (the per-column solve with its final
`W_0 := 0` loop, followed by direct stiffness summation), the updated
vertical momentum on the lowest interface is exactly `0` at every
horizontal quadrature node.  DSS is modelled from the spec: it averages
co-located duplicated values of a level, so it maps a component that is
zero on the lowest interface everywhere to a component that is zero on
the lowest interface everywhere (hypothesis `hdss`). -/
theorem stepImplicit_bottom_W_zero {ι : Type} (P : ImpParams)
    (cols : ι → ImpCol) (bufsOf : ι → TriBuffers) (sts : ι → ImpColUpd)
    (dss : (ι → ℕ → ℚ) → ι → ℕ → ℚ)
    (hdss : ∀ f : ι → ℕ → ℚ, (∀ i, f i 0 = 0) → ∀ i, dss f i 0 = 0) :
    ∀ i, (stepImplicitPatch P cols bufsOf sts dss i).updW 0 = 0 := by
  intro i
  have hz : ∀ j,
      ((stepImplicitColumn P (cols j) (bufsOf j) (sts j)).1).updW 0 = 0 := by
    intro j
    simp [stepImplicitColumn, applyBottomBC, updFn]
  exact hdss _ hz i

/-- Witness for C2: a one-column patch with the identity as DSS (the
average of a single duplicated value). -/
theorem stepImplicit_bottom_W_zero_witness :
    (stepImplicitPatch (ι := Unit) ⟨2, 1, 0, 0⟩ (fun _ => colWit)
        (fun _ => bufsWit) (fun _ => ⟨fun _ => 1, fun _ => 1, fun _ => 1⟩)
        (fun f => f) ()).updW 0 = 0 :=
  stepImplicit_bottom_W_zero ⟨2, 1, 0, 0⟩ (fun _ => colWit)
    (fun _ => bufsWit) (fun _ => ⟨fun _ => 1, fun _ => 1, fun _ => 1⟩)
    (fun f => f) (fun _ h i => h i) ()

/-! ## Rayleigh friction (`ApplyRayleighFriction`)

Per horizontal location the stage damps the state toward the reference
state with a per-location strength, sub-cycled ten times, on nodes and
on interfaces separately.  We embed one horizontal location: the state
is a map (component, vertical index) to value. -/

/-- Variable location, as reported by `Grid::GetVarLocation`. -/
inductive VarLoc where
  | node : VarLoc
  | redge : VarLoc
  deriving DecidableEq

/-- Equation-set kinds distinguished by the routines modelled here. -/
inductive EqSetKind where
  | primitiveNonhydrostatic : EqSetKind
  | shallowWater : EqSetKind
  | otherKind : EqSetKind
  deriving DecidableEq

/-- Single-slot overwrite of the `nEffectiveC` index array. -/
def updNat (f : ℕ → ℕ) (i v : ℕ) : ℕ → ℕ :=
  fun j => if j = i then v else f j

/-- The `nEffectiveC` component-remapping table: the C array is declared
uninitialised (its prior contents are the parameter `garbage`), selected
slots are assigned, and the first `nComponents` (after the decrements)
entries are used.  3-D primitive non-hydrostatic drops the last
component (density); Cartesian-XZ primitive drops the last two and remaps
`{0,2,3}`; every other equation set damps all components. -/
def effectiveComponents (garbage : ℕ → ℕ) (eq : EqSetKind)
    (fCartXZ : Bool) (n : ℕ) : List ℕ :=
  if eq = EqSetKind.primitiveNonhydrostatic ∧ fCartXZ = false then
    (List.range (n - 1)).map
      (updNat (updNat (updNat (updNat (updNat garbage 0 0) 1 1) 2 2) 3 3)
        (n - 1) 0)
  else if eq = EqSetKind.primitiveNonhydrostatic ∧ fCartXZ = true then
    (List.range (n - 2)).map
      (updNat (updNat (updNat (updNat (updNat garbage 0 0) 1 2) 2 3)
        (n - 2) 0) (n - 1) 0)
  else List.range n

/-- Single-cell overwrite of a (component, level)-indexed state slice. -/
def updCK (f : ℕ → ℕ → ℚ) (c k : ℕ) (v : ℚ) : ℕ → ℕ → ℚ :=
  fun c2 k2 => if c2 = c ∧ k2 = k then v else f c2 k2

/-- One Rayleigh sub-cycle: backward Euler toward the reference value
with `μ = 1/(1 + (Δt/10)·ν)` (the source divides the strength by the
ten sub-cycles through `dRayleighFactor`). -/
def rayleighMap (dt nu ref : ℚ) : ℚ → ℚ :=
  fun x => (1 / (1 + (1 / 10) * dt * nu)) * x +
    (1 - 1 / (1 + (1 / 10) * dt * nu)) * ref

/-- The ten sub-cycles applied to one cell (the source recomputes the
same `μ` in every cycle). -/
def rayleighSubcycled (dt nu ref x : ℚ) : ℚ :=
  (rayleighMap dt nu ref)^[10] x

/-- The loop over effective components at one vertical index `k`:
components whose location matches `target` are damped in place. -/
def rayleighInner (loc : ℕ → VarLoc) (target : VarLoc) (eff : List ℕ)
    (dt nu : ℚ) (refA : ℕ → ℕ → ℚ) (k : ℕ) (f : ℕ → ℕ → ℚ) :
    ℕ → ℕ → ℚ :=
  eff.foldl (fun st c =>
    if loc c = target then
      updCK st c k (rayleighSubcycled dt nu (refA c k) (st c k))
    else st) f

/-- The node loop of `ApplyRayleighFriction` at one horizontal location:
for `k = 0 … nR-1`, skip the level when its strength is zero, otherwise
damp the node-located effective components. -/
def rayleighNodes (nR : ℕ) (loc : ℕ → VarLoc) (eff : List ℕ) (dt : ℚ)
    (strengthN : ℕ → ℚ) (refN : ℕ → ℕ → ℚ) (f0 : ℕ → ℕ → ℚ) :
    ℕ → ℕ → ℚ :=
  (List.range nR).foldl (fun f k =>
    if strengthN k = 0 then f
    else rayleighInner loc VarLoc.node eff dt (strengthN k) refN k f) f0

/-- The interface loop of `ApplyRayleighFriction`: `k = 0 … nR`. -/
def rayleighREdges (nR : ℕ) (loc : ℕ → VarLoc) (eff : List ℕ) (dt : ℚ)
    (strengthE : ℕ → ℚ) (refE : ℕ → ℕ → ℚ) (f0 : ℕ → ℕ → ℚ) :
    ℕ → ℕ → ℚ :=
  (List.range (nR + 1)).foldl (fun f k =>
    if strengthE k = 0 then f
    else rayleighInner loc VarLoc.redge eff dt (strengthE k) refE k f) f0

/-- `HighSpeedDynamics::ApplyRayleighFriction` at one horizontal
location: build the effective-component table, then damp nodes and
interfaces. -/
def applyRayleighFriction (nR : ℕ) (loc : ℕ → VarLoc) (garbage : ℕ → ℕ)
    (eq : EqSetKind) (fCartXZ : Bool) (nComp : ℕ) (dt : ℚ)
    (strengthN strengthE : ℕ → ℚ) (refN refE : ℕ → ℕ → ℚ)
    (nodes0 redges0 : ℕ → ℕ → ℚ) : (ℕ → ℕ → ℚ) × (ℕ → ℕ → ℚ) :=
  let eff := effectiveComponents garbage eq fCartXZ nComp
  (rayleighNodes nR loc eff dt strengthN refN nodes0,
   rayleighREdges nR loc eff dt strengthE refE redges0)

theorem rayleighInner_preserves_other_level (loc : ℕ → VarLoc)
    (target : VarLoc) (eff : List ℕ) (dt nu : ℚ) (refA : ℕ → ℕ → ℚ)
    (k k0 : ℕ) (hk : k ≠ k0) (f : ℕ → ℕ → ℚ) (c0 : ℕ) :
    rayleighInner loc target eff dt nu refA k f c0 k0 = f c0 k0 := by
  induction eff generalizing f with
  | nil => rfl
  | cons c t ih =>
      show rayleighInner loc target t dt nu refA k _ c0 k0 = _
      rw [ih]
      by_cases hc : loc c = target
      · simp [hc, updCK, Ne.symm hk]
      · simp [hc]

theorem rayleighLoop_zero_strength (loc : ℕ → VarLoc) (target : VarLoc)
    (eff : List ℕ) (dt : ℚ) (strength : ℕ → ℚ) (refA : ℕ → ℕ → ℚ)
    (levels : List ℕ) (f0 : ℕ → ℕ → ℚ) (k0 : ℕ) (h0 : strength k0 = 0)
    (c0 : ℕ) :
    levels.foldl (fun f k =>
        if strength k = 0 then f
        else rayleighInner loc target eff dt (strength k) refA k f) f0
        c0 k0 =
      f0 c0 k0 := by
  induction levels generalizing f0 with
  | nil => rfl
  | cons k t ih =>
      rw [List.foldl_cons, ih]
      by_cases hk : strength k = 0
      · simp [hk]
      · have hne : k ≠ k0 := fun he => hk (he ▸ h0)
        simp only [hk, if_false]
        exact rayleighInner_preserves_other_level loc target eff dt
          (strength k) refA k k0 hne f0 c0

/-- C8: for every node level whose Rayleigh strength is zero and every
interface level whose Rayleigh strength is zero, `ApplyRayleighFriction`
leaves every state component at that level unchanged. -/
theorem rayleigh_zero_strength_identity (nR : ℕ) (loc : ℕ → VarLoc)
    (garbage : ℕ → ℕ) (eq : EqSetKind) (fCartXZ : Bool) (nComp : ℕ)
    (dt : ℚ) (strengthN strengthE : ℕ → ℚ) (refN refE : ℕ → ℕ → ℚ)
    (nodes0 redges0 : ℕ → ℕ → ℚ) (k0 k1 : ℕ)
    (h0 : strengthN k0 = 0) (h1 : strengthE k1 = 0) :
    (∀ c, (applyRayleighFriction nR loc garbage eq fCartXZ nComp dt
        strengthN strengthE refN refE nodes0 redges0).1 c k0 =
        nodes0 c k0) ∧
      (∀ c, (applyRayleighFriction nR loc garbage eq fCartXZ nComp dt
        strengthN strengthE refN refE nodes0 redges0).2 c k1 =
        redges0 c k1) := by
  constructor
  · intro c
    exact rayleighLoop_zero_strength loc VarLoc.node _ dt strengthN refN
      (List.range nR) nodes0 k0 h0 c
  · intro c
    exact rayleighLoop_zero_strength loc VarLoc.redge _ dt strengthE refE
      (List.range (nR + 1)) redges0 k1 h1 c

/-- Witness for C8: a five-component 3-D primitive non-hydrostatic setup
with zero strength at node level 0 and interface level 1. -/
theorem rayleigh_zero_strength_identity_witness :
    (∀ c, (applyRayleighFriction 2 (fun c => if c = 3 then VarLoc.redge else VarLoc.node)
        (fun j => j) EqSetKind.primitiveNonhydrostatic false 5 1
        (fun _ => 0) (fun _ => 0) (fun _ _ => 1) (fun _ _ => 1)
        (fun _ _ => 2) (fun _ _ => 3)).1 c 0 = (fun _ _ => (2 : ℚ)) c 0) ∧
      (∀ c, (applyRayleighFriction 2 (fun c => if c = 3 then VarLoc.redge else VarLoc.node)
        (fun j => j) EqSetKind.primitiveNonhydrostatic false 5 1
        (fun _ => 0) (fun _ => 0) (fun _ _ => 1) (fun _ _ => 1)
        (fun _ _ => 2) (fun _ _ => 3)).2 c 1 = (fun _ _ => (3 : ℚ)) c 1) :=
  rayleigh_zero_strength_identity 2
    (fun c => if c = 3 then VarLoc.redge else VarLoc.node) (fun j => j)
    EqSetKind.primitiveNonhydrostatic false 5 1 (fun _ => 0) (fun _ => 0)
    (fun _ _ => 1) (fun _ _ => 1) (fun _ _ => 2) (fun _ _ => 3) 0 1 rfl rfl

/-! ## Scalar hyperdiffusion (`ApplyScalarHyperdiffusion`)

A field is a map (component, (iA, iB, k)) to value over one patch.  The
per-element update of one component computes the pointwise gradient of
the buffered field with the differentiation matrix, forms the
Jacobian-weighted contravariant flux with the 2D contravariant metric,
contracts with the stiffness matrix and decrements the update state.
Within one component and element all writes are distinct cells whose
values read only the initial data, the metric and the cell's own prior
update value, so the element update is embedded pointwise. -/

/-- Per-patch grid data used by the hyperdiffusion stage. -/
structure HDGrid where
  p : ℕ
  halo : ℕ
  nElemA : ℕ
  nElemB : ℕ
  nR : ℕ
  nComp : ℕ
  nTracer : ℕ
  jacNode : ℕ × ℕ × ℕ → ℚ
  jacREdge : ℕ × ℕ × ℕ → ℚ
  metricA : ℕ → ℕ → ℕ → ℚ
  metricB : ℕ → ℕ → ℕ → ℚ
  dx : ℕ → ℕ → ℚ
  stiff : ℕ → ℕ → ℚ
  deltaA : ℚ
  deltaB : ℚ
  refLength : ℚ
  varLoc : ℕ → VarLoc

/-- The state and tracer arrays of one data instance. -/
structure HDData where
  node : ℕ → ℕ × ℕ × ℕ → ℚ
  redge : ℕ → ℕ × ℕ × ℕ → ℚ
  tracer : ℕ → ℕ × ℕ × ℕ → ℚ

/-- `m_dBufferState`: the initial field, minus the reference state when
`fRemoveRefState` is set. -/
def hdBuffer (dataI dataR : ℕ → ℕ × ℕ × ℕ → ℚ) (removeRef : Bool)
    (cmp eA eB i j k : ℕ) : ℚ :=
  dataI cmp (eA + i, eB + j, k) -
    (if removeRef then dataR cmp (eA + i, eB + j, k) else 0)

/-- `dDaPsi`: α-derivative of the buffer by the differentiation matrix,
scaled by the inverse element spacing. -/
def hdDaPsi (G : HDGrid) (dataI dataR : ℕ → ℕ × ℕ × ℕ → ℚ)
    (removeRef : Bool) (cmp eA eB i j k : ℕ) : ℚ :=
  ((List.range G.p).map (fun s =>
    hdBuffer dataI dataR removeRef cmp eA eB s j k * G.dx s i)).sum *
    (1 / G.deltaA)

/-- `dDbPsi`: β-derivative of the buffer. -/
def hdDbPsi (G : HDGrid) (dataI dataR : ℕ → ℕ × ℕ × ℕ → ℚ)
    (removeRef : Bool) (cmp eA eB i j k : ℕ) : ℚ :=
  ((List.range G.p).map (fun s =>
    hdBuffer dataI dataR removeRef cmp eA eB i s k * G.dx s j)).sum *
    (1 / G.deltaB)

/-- `m_dJGradientA`: Jacobian-weighted α-contravariant gradient. -/
def hdJGradA (G : HDGrid) (dataI dataR : ℕ → ℕ × ℕ × ℕ → ℚ)
    (jac : ℕ × ℕ × ℕ → ℚ) (removeRef : Bool) (cmp eA eB i j k : ℕ) : ℚ :=
  jac (eA + i, eB + j, k) *
    (G.metricA (eA + i) (eB + j) 0 *
        hdDaPsi G dataI dataR removeRef cmp eA eB i j k
      + G.metricA (eA + i) (eB + j) 1 *
        hdDbPsi G dataI dataR removeRef cmp eA eB i j k)

/-- `m_dJGradientB`: Jacobian-weighted β-contravariant gradient. -/
def hdJGradB (G : HDGrid) (dataI dataR : ℕ → ℕ × ℕ × ℕ → ℚ)
    (jac : ℕ × ℕ × ℕ → ℚ) (removeRef : Bool) (cmp eA eB i j k : ℕ) : ℚ :=
  jac (eA + i, eB + j, k) *
    (G.metricB (eA + i) (eB + j) 0 *
        hdDaPsi G dataI dataR removeRef cmp eA eB i j k
      + G.metricB (eA + i) (eB + j) 1 *
        hdDbPsi G dataI dataR removeRef cmp eA eB i j k)

/-- The pointwise update of `(*pDataUpdate)(c, eA+i, eB+j, k)`: subtract
`Δt · (1/J) · ν_local` times the stiffness-contracted flux divergence. -/
def hdNewValue (G : HDGrid) (dataI dataU dataR : ℕ → ℕ × ℕ × ℕ → ℚ)
    (jac : ℕ × ℕ × ℕ → ℚ) (removeRef : Bool) (nuLoc dt : ℚ)
    (cmp eA eB i j k : ℕ) : ℚ :=
  dataU cmp (eA + i, eB + j, k) -
    dt * (1 / jac (eA + i, eB + j, k)) * nuLoc *
      (((List.range G.p).map (fun s =>
          hdJGradA G dataI dataR jac removeRef cmp eA eB s j k *
            G.stiff i s)).sum * (1 / G.deltaA)
        + ((List.range G.p).map (fun s =>
          hdJGradB G dataI dataR jac removeRef cmp eA eB i s k *
            G.stiff j s)).sum * (1 / G.deltaB))

/-- One element's update of one component: cells of the element interior
block take the new value, every other cell (and every other component)
keeps its previous contents. -/
def hdElemCompUpdate (G : HDGrid) (dataI dataR : ℕ → ℕ × ℕ × ℕ → ℚ)
    (jac : ℕ × ℕ × ℕ → ℚ) (nK : ℕ) (removeRef : Bool) (nuLoc dt : ℚ)
    (cmp a b : ℕ) (dataU : ℕ → ℕ × ℕ × ℕ → ℚ) : ℕ → ℕ × ℕ × ℕ → ℚ :=
  fun c2 pos =>
    if c2 = cmp ∧ a * G.p + G.halo ≤ pos.1 ∧ pos.1 < a * G.p + G.halo + G.p ∧
        b * G.p + G.halo ≤ pos.2.1 ∧ pos.2.1 < b * G.p + G.halo + G.p ∧
        pos.2.2 < nK then
      hdNewValue G dataI dataU dataR jac removeRef nuLoc dt cmp
        (a * G.p + G.halo) (b * G.p + G.halo)
        (pos.1 - (a * G.p + G.halo)) (pos.2.1 - (b * G.p + G.halo)) pos.2.2
    else dataU c2 pos

/-- The element double loop `(a, b)` of the patch, in source order. -/
def elemPairs (G : HDGrid) : List (ℕ × ℕ) :=
  (List.range G.nElemA).flatMap (fun a =>
    (List.range G.nElemB).map (fun b => (a, b)))

/-- One component updated over all elements of the patch. -/
def hdComponentUpdate (G : HDGrid) (dataI dataR : ℕ → ℕ × ℕ × ℕ → ℚ)
    (jac : ℕ × ℕ × ℕ → ℚ) (nK : ℕ) (removeRef : Bool) (nuLoc dt : ℚ)
    (cmp : ℕ) (dataU : ℕ → ℕ × ℕ × ℕ → ℚ) : ℕ → ℕ × ℕ × ℕ → ℚ :=
  (elemPairs G).foldl (fun dU ab =>
    hdElemCompUpdate G dataI dataR jac nK removeRef nuLoc dt cmp
      ab.1 ab.2 dU) dataU

/-- One iteration of the state-variable loop (`iType = 0`): the arrays,
Jacobian and vertical extent are chosen by the component's location. -/
def hdStateStep (G : HDGrid) (initD refD : HDData) (removeRef : Bool)
    (nuLoc dt : ℚ) (cmp : ℕ) (updD : HDData) : HDData :=
  match G.varLoc cmp with
  | VarLoc.node =>
      { updD with
          node := hdComponentUpdate G initD.node refD.node G.jacNode G.nR
                    removeRef nuLoc dt cmp updD.node }
  | VarLoc.redge =>
      { updD with
          redge := hdComponentUpdate G initD.redge refD.redge G.jacREdge
                     (G.nR + 1) removeRef nuLoc dt cmp updD.redge }

/-- One iteration of the tracer loop (`iType = 1`), on nodes.  The
source leaves `pDataRef` pointing at the reference-state array selected
by the last state component, so the reference field used when
`fRemoveRefState` is set is passed in as `refT`. -/
def hdTracerStep (G : HDGrid) (initD : HDData)
    (refT : ℕ → ℕ × ℕ × ℕ → ℚ) (removeRef : Bool) (nuLoc dt : ℚ)
    (cmp : ℕ) (updD : HDData) : HDData :=
  { updD with
      tracer := hdComponentUpdate G initD.tracer refT G.jacNode G.nR
                  removeRef nuLoc dt cmp updD.tracer }

/-- The state-variable loop with the default selector: components
`2 … nComp-1` in order. -/
def hdStateLoop (G : HDGrid) (initD refD : HDData) (removeRef : Bool)
    (nuLoc dt : ℚ) (updD : HDData) : HDData :=
  (List.range' 2 (G.nComp - 2)).foldl
    (fun dU cmp => hdStateStep G initD refD removeRef nuLoc dt cmp dU) updD

/-- The reference array the tracer loop sees: `pDataRef` still points at
the reference state selected by the location of the last state
component. -/
def hdRefTracer (G : HDGrid) (refD : HDData) : ℕ → ℕ × ℕ × ℕ → ℚ :=
  match G.varLoc (G.nComp - 1) with
  | VarLoc.node => refD.node
  | VarLoc.redge => refD.redge

/-- The tracer loop with the default selector: all tracers in order. -/
def hdTracerLoop (G : HDGrid) (initD : HDData)
    (refT : ℕ → ℕ × ℕ × ℕ → ℚ) (removeRef : Bool) (nuLoc dt : ℚ)
    (updD : HDData) : HDData :=
  (List.range G.nTracer).foldl
    (fun dU cmp => hdTracerStep G initD refT removeRef nuLoc dt cmp dU) updD

/-- The default-component run of `ApplyScalarHyperdiffusion`
(`iComponent = -1`): state components `2 … nComp-1`, then all tracers. -/
def applyScalarHDDefault (G : HDGrid) (pw : ℚ → ℚ) (initD updD refD : HDData)
    (dt nu : ℚ) (scale removeRef : Bool) : HDData :=
  hdTracerLoop G initD (hdRefTracer G refD) removeRef
    (localNu pw nu scale G.refLength G.deltaA) dt
    (hdStateLoop G initD refD removeRef
      (localNu pw nu scale G.refLength G.deltaA) dt updD)

/-- `HighSpeedDynamics::ApplyScalarHyperdiffusion`: argument validation,
then the component selection (`iComponent = -1` selects components
`2 … nComp-1` and all tracers; an explicit component selects only that
component and skips the tracers). -/
def applyScalarHyperdiffusion (G : HDGrid) (pw : ℚ → ℚ)
    (initD updD refD : HDData) (dt nu : ℚ) (scale : Bool)
    (iComponent : ℤ) (removeRef : Bool) : Except HSDError HDData :=
  if iComponent < -1 then Except.error HSDError.invalidComponent
  else if iComponent = -1 then
    Except.ok (applyScalarHDDefault G pw initD updD refD dt nu scale removeRef)
  else if G.nComp ≤ iComponent.toNat then Except.error HSDError.invalidComponent
  else
    Except.ok (hdStateStep G initD refD removeRef
      (localNu pw nu scale G.refLength G.deltaA) dt iComponent.toNat updD)

theorem hdComponentUpdate_other_component (G : HDGrid)
    (dataI dataR : ℕ → ℕ × ℕ × ℕ → ℚ) (jac : ℕ × ℕ × ℕ → ℚ) (nK : ℕ)
    (removeRef : Bool) (nuLoc dt : ℚ) (cmp : ℕ)
    (dataU : ℕ → ℕ × ℕ × ℕ → ℚ) (c2 : ℕ) (hne : c2 ≠ cmp)
    (pos : ℕ × ℕ × ℕ) :
    hdComponentUpdate G dataI dataR jac nK removeRef nuLoc dt cmp dataU
        c2 pos =
      dataU c2 pos := by
  unfold hdComponentUpdate
  induction elemPairs G generalizing dataU with
  | nil => rfl
  | cons ab t ih =>
      rw [List.foldl_cons, ih]
      simp [hdElemCompUpdate, hne]

theorem hdStateFold_frame (G : HDGrid) (initD refD : HDData)
    (removeRef : Bool) (nuLoc dt : ℚ) (comps : List ℕ) (updD : HDData)
    (c2 : ℕ) (h : ∀ cmp ∈ comps, c2 ≠ cmp) :
    (∀ pos, (comps.foldl
        (fun dU cmp => hdStateStep G initD refD removeRef nuLoc dt cmp dU)
        updD).node c2 pos = updD.node c2 pos) ∧
      (∀ pos, (comps.foldl
        (fun dU cmp => hdStateStep G initD refD removeRef nuLoc dt cmp dU)
        updD).redge c2 pos = updD.redge c2 pos) := by
  induction comps generalizing updD with
  | nil => exact ⟨fun _ => rfl, fun _ => rfl⟩
  | cons cmp t ih =>
      have hne : c2 ≠ cmp := h cmp (List.mem_cons_self cmp t)
      have ht : ∀ x ∈ t, c2 ≠ x := fun x hx => h x (List.mem_cons_of_mem cmp hx)
      obtain ⟨ihn, ihr⟩ := ih (hdStateStep G initD refD removeRef nuLoc dt cmp updD) ht
      constructor
      · intro pos
        rw [List.foldl_cons, ihn]
        cases hloc : G.varLoc cmp <;>
          simp [hdStateStep, hloc, hdComponentUpdate_other_component G _ _ _ _
            removeRef nuLoc dt cmp _ c2 hne pos]
      · intro pos
        rw [List.foldl_cons, ihr]
        cases hloc : G.varLoc cmp <;>
          simp [hdStateStep, hloc, hdComponentUpdate_other_component G _ _ _ _
            removeRef nuLoc dt cmp _ c2 hne pos]

theorem hdTracerFold_keeps_state (G : HDGrid) (initD : HDData)
    (refT : ℕ → ℕ × ℕ × ℕ → ℚ) (removeRef : Bool) (nuLoc dt : ℚ)
    (comps : List ℕ) (updD : HDData) :
    (comps.foldl
        (fun dU cmp => hdTracerStep G initD refT removeRef nuLoc dt cmp dU)
        updD).node = updD.node ∧
      (comps.foldl
        (fun dU cmp => hdTracerStep G initD refT removeRef nuLoc dt cmp dU)
        updD).redge = updD.redge := by
  induction comps generalizing updD with
  | nil => exact ⟨rfl, rfl⟩
  | cons cmp t ih =>
      exact ih (hdTracerStep G initD refT removeRef nuLoc dt cmp updD)

/-- C10: a call to `ApplyScalarHyperdiffusion` with the default component
selector `iComponent = -1` succeeds and leaves the horizontal momentum
components `U` (index 0) and `V` (index 1) of the update state — on
nodes and on interfaces — unchanged at every position: the state loop
visits only components of index at least 2, and the tracer loop touches
only the tracer array. -/
theorem scalarHD_default_leaves_momentum (G : HDGrid) (pw : ℚ → ℚ)
    (initD updD refD : HDData) (dt nu : ℚ) (scale removeRef : Bool) :
    ∃ res, applyScalarHyperdiffusion G pw initD updD refD dt nu scale
        (-1) removeRef = Except.ok res ∧
      (∀ pos, res.node 0 pos = updD.node 0 pos) ∧
      (∀ pos, res.node 1 pos = updD.node 1 pos) ∧
      (∀ pos, res.redge 0 pos = updD.redge 0 pos) ∧
      (∀ pos, res.redge 1 pos = updD.redge 1 pos) := by
  have hmem : ∀ cmp ∈ List.range' 2 (G.nComp - 2),
      (0 : ℕ) ≠ cmp ∧ (1 : ℕ) ≠ cmp := by
    intro cmp hc
    have h2 : 2 ≤ cmp := (List.mem_range'_1.mp hc).1
    omega
  have hT := hdTracerFold_keeps_state G initD (hdRefTracer G refD) removeRef
    (localNu pw nu scale G.refLength G.deltaA) dt (List.range G.nTracer)
    (hdStateLoop G initD refD removeRef
      (localNu pw nu scale G.refLength G.deltaA) dt updD)
  have hS0 := hdStateFold_frame G initD refD removeRef
    (localNu pw nu scale G.refLength G.deltaA) dt
    (List.range' 2 (G.nComp - 2)) updD 0 (fun c hc => (hmem c hc).1)
  have hS1 := hdStateFold_frame G initD refD removeRef
    (localNu pw nu scale G.refLength G.deltaA) dt
    (List.range' 2 (G.nComp - 2)) updD 1 (fun c hc => (hmem c hc).2)
  refine ⟨applyScalarHDDefault G pw initD updD refD dt nu scale removeRef,
    by simp [applyScalarHyperdiffusion], ?_, ?_, ?_, ?_⟩ <;>
    intro pos <;>
    unfold applyScalarHDDefault hdTracerLoop
  · rw [congrFun (congrFun hT.1 0) pos]
    exact hS0.1 pos
  · rw [congrFun (congrFun hT.1 1) pos]
    exact hS1.1 pos
  · rw [congrFun (congrFun hT.2 0) pos]
    exact hS0.2 pos
  · rw [congrFun (congrFun hT.2 1) pos]
    exact hS1.2 pos

end TempestHSD
